import Mathlib

/-!
Shallow embedding of the ghfs repository: an adapter exposing a git tree
snapshot through the `http.File` interface (open/read/seek/readdir/close).

The repository carries three generations of the same design.  The file-handle
(`ghfsFile`) and filesystem (`ghfs.Open`) definitions below are translated
from the latest generation, `src/unnamed/part_002` (the one whose
`Unopened`/`Streaming`/`AtEnd` state machine the specification describes).
The directory reader exists in two materially different generations, so both
are embedded: `readdir0` from `src/unnamed/part_000` (index cursor over the
tree) and `dirReaddir` from `src/unnamed/part_002` (scanner based).

Modelling conventions:
* Bytes are `Nat`; blob content is a `List Nat`.
* `int64` offsets are modelled as `Int` (the quantities involved are bounded
  by blob lengths and caller-supplied offsets; no claim probes 64-bit
  wraparound).
* Go's `(value, error)` multiple returns become pairs with `Option Err`;
  the error identities of the source are kept apart as `Err` constructors.
* The backing stream (`io.ReadCloser` from `entry.Blob().Data()` in
  part_002) is a cursor over the blob bytes; a read request for `n` bytes
  delivers `min n remaining` bytes (a deterministic resolution of the Go
  `io.Reader` contract; the `io.CopyN` loop is insensitive to the split).
* `FileState.opens` is ghost instrumentation counting how many times a
  backing store stream was established; no source behaviour depends on it.
-/

/-- Error identities used by the source (and the spec's §7 taxonomy).
`eof` is `io.EOF`; `eisdir` is `syscall.EISDIR`; `errInvalid` is
`os.ErrInvalid`; `errWhence` and `errOffset` are the two `errors.New`
values produced by `ghfsFile.Seek`; `notFound` is a failed path
resolution; `invalidType` is the "Invalid type" error of `ghfs.Open`.
`enotdir` models the spec taxonomy's NotADirectory (`syscall.ENOTDIR`);
the code never produces it. -/
inductive Err where
  | eof
  | eisdir
  | errInvalid
  | enotdir
  | errWhence
  | errOffset
  | notFound
  | invalidType
deriving DecidableEq, Repr

/-- Git object kinds relevant to `ghfs.Open` dispatch. -/
inductive ObjType where
  | tree
  | blob
  | other
deriving DecidableEq, Repr

/-- A (name, kind, content, declared size) tuple: `g.TreeEntry`.
`size` is the declared blob size (`entry.Size()`); `blob` is the byte
content the store streams for the entry (`entry.Blob().Data()`). -/
structure TreeEntry where
  name : String
  typ : ObjType
  size : Int
  blob : List Nat
deriving DecidableEq, Repr

/-- The `os.FileInfo` facts the claims use: name, size, directory bit. -/
structure FileInfo where
  name : String
  size : Int
  isDir : Bool
deriving DecidableEq, Repr

/-- `rootFileInfo` from part_002: the synthetic metadata of the root. -/
def rootFileInfo : FileInfo := { name := "", size := 0, isDir := true }

/-- The `os.FileInfo` view of a `TreeEntry` (part_002 appends tree entries
directly as `os.FileInfo`; `modTimeFileInfo` only overrides the mtime,
which no claim observes). -/
def entryFileInfo (e : TreeEntry) : FileInfo :=
  { name := e.name, size := e.size, isDir := e.typ = ObjType.tree }

/-- `NewFileInfo` from part_000: directory entries get mode Dir and size 0;
blob entries get the declared blob size. -/
def entryFileInfo0 (e : TreeEntry) : FileInfo :=
  if e.typ = ObjType.tree then { name := e.name, size := 0, isDir := true }
  else { name := e.name, size := e.size, isDir := false }

/-- A forward-only backing stream: the blob bytes plus a read position. -/
structure BStream where
  content : List Nat
  pos : Nat
deriving DecidableEq, Repr

/-- `ghfsFile` from part_002: entry, lazily created stream `rc`, logical
offset `off`, the `atEnd` flag, plus the ghost open counter. -/
structure FileState where
  entry : TreeEntry
  rc : Option BStream
  off : Int
  atEnd : Bool
  opens : Nat
deriving DecidableEq, Repr

/-- `NewFile` from part_002: no stream, offset 0, not at end. -/
def mkFile (e : TreeEntry) : FileState :=
  { entry := e, rc := none, off := 0, atEnd := false, opens := 0 }

/-- The lazy-open prologue of `ghfsFile.Read` (part_002): if `f.rc == nil`,
ask the store for a fresh stream over the entry's blob. -/
def ensureStream (f : FileState) : BStream × FileState :=
  match f.rc with
  | none =>
      (⟨f.entry.blob, 0⟩,
        { f with rc := some ⟨f.entry.blob, 0⟩, opens := f.opens + 1 })
  | some s => (s, f)

/-- `ghfsFile.Read` from part_002, for a buffer of length `n`.  Order
matters and is kept from the source: the stream is (lazily) established
first, the `atEnd` check comes second, and only then are bytes pulled.
Returns the bytes delivered in place of Go's `(count, buf)` pair. -/
def fileRead (f : FileState) (n : Nat) : (List Nat × Option Err) × FileState :=
  let sf := ensureStream f
  let s := sf.1
  let f1 := sf.2
  if f1.atEnd then (([], some Err.eof), f1)
  else if s.content.length ≤ s.pos then (([], some Err.eof), f1)
  else
    let k := min n (s.content.length - s.pos)
    (((s.content.drop s.pos).take k, none),
      { f1 with rc := some ⟨s.content, s.pos + k⟩, off := f1.off + k })

/-- `ghfsFile.Close` from part_002: release the stream if present (the
model's stream close never fails), nil it, and zero `off`.  The `atEnd`
flag is untouched — exactly as in the source. -/
def fileClose (f : FileState) : Option Err × FileState :=
  (none, { f with rc := none, off := 0 })

/-- `ghfsFile.Readdir` from part_002: always `(nil, os.ErrInvalid)`. -/
def fileReaddir (_f : FileState) (_count : Int) : List FileInfo × Option Err :=
  ([], some Err.errInvalid)

/-- The loop of `io.CopyN(ioutil.Discard, f, n)`: repeatedly read and
discard until `n` bytes were skipped or the source stops.  `fuel` bounds
the iteration count; every successful read of a positive request delivers
at least one byte, so `fuel = n` suffices.  A short stop surfaces as
`io.EOF` with the count delivered, as `io.CopyN` reports it. -/
def copyNAux : Nat → FileState → Nat → Nat × Option Err × FileState
  | _, f, 0 => (0, none, f)
  | 0, f, _ + 1 => (0, some Err.eof, f)
  | fuel + 1, f, n + 1 =>
      match fileRead f (n + 1) with
      | ((bs, some e), f') => (bs.length, some e, f')
      | ((bs, none), f') =>
          let r := copyNAux fuel f' (n + 1 - bs.length)
          (bs.length + r.1, r.2.1, r.2.2)

/-- `io.CopyN(ioutil.Discard, f, n)`: a non-positive count copies nothing
and does not touch the source (the limit reader reports end before the
first read). -/
def copyN (f : FileState) (n : Int) : Nat × Option Err × FileState :=
  if n ≤ 0 then (0, none, f) else copyNAux n.toNat f n.toNat

/-- The second `switch` of `ghfsFile.Seek` (part_002), applied after
`f.atEnd = false` was assigned: validate `noff`, then either restart the
stream from scratch (backward) or forward-skip (forward).  The backward
branch returns `io.CopyN`'s own pair; the forward branch returns the
updated `f.off` together with the copy error. -/
def seekTo (f : FileState) (noff : Int) : (Int × Option Err) × FileState :=
  if noff < 0 then ((0, some Err.errOffset), f)
  else if noff < f.off then
    let f1 := (fileClose f).2
    let r := copyN f1 noff
    (((r.1 : Int), r.2.1), r.2.2)
  else
    let r := copyN f (noff - f.off)
    ((r.2.2.off, r.2.1), r.2.2)

/-- `ghfsFile.Seek` from part_002.  `whence` is a Go `int`
(`os.SEEK_SET = 0`, `os.SEEK_CUR = 1`, `os.SEEK_END = 2`).  A
`SEEK_CUR` request on a handle flying the `atEnd` flag is rewritten to
`SEEK_END`; `SEEK_END` with offset 0 is the cheap special case that only
sets `atEnd`; every path that reaches the offset checks first clears
`atEnd`; an unknown `whence` fails before touching the handle. -/
def fileSeek (f : FileState) (offset whence : Int) : (Int × Option Err) × FileState :=
  let w := if whence = 1 ∧ f.atEnd then 2 else whence
  if w = 0 then seekTo { f with atEnd := false } offset
  else if w = 1 then seekTo { f with atEnd := false } (f.off + offset)
  else if w = 2 then
    if offset = 0 then ((f.entry.size, none), { f with atEnd := true })
    else seekTo { f with atEnd := false } (f.entry.size + offset)
  else ((0, some Err.errWhence), f)

/-- The target absolute offset of a seek, as part_002 computes it: POSIX
for `Start`/`End`; `Current` is end-relative when the handle is `atEnd`. -/
def seekTarget (f : FileState) (offset whence : Int) : Int :=
  if whence = 0 then offset
  else if whence = 1 then
    (if f.atEnd then f.entry.size + offset else f.off + offset)
  else f.entry.size + offset

/-- A caller draining a file handle: read one byte at a time until the
handle reports anything other than plain data.  `fuel` bounds the loop. -/
def readAllAux : Nat → FileState → List Nat
  | 0, _ => []
  | fuel + 1, f =>
      match fileRead f 1 with
      | ((bs, none), f') => bs ++ readAllAux fuel f'
      | ((_, some _), _) => []

/-- Drain a handle to end-of-data.  A fuel of blob length + 1 covers every
state whose stream (current or lazily opened) holds the entry's blob. -/
def readAll (f : FileState) : List Nat :=
  readAllAux (f.entry.blob.length + 1) f

/-- `ghfsDir` from part_002: cached metadata plus the scanner, modelled as
the list of entries not yet scanned. -/
structure GDir where
  fi : FileInfo
  scanner : List TreeEntry
deriving DecidableEq, Repr

/-- `ghfsDir.Read` from part_002: always `(0, io.EOF)`. -/
def dirRead (_d : GDir) (_n : Nat) : List Nat × Option Err :=
  ([], some Err.eof)

/-- `ghfsDir.Seek` from part_002: always `(0, syscall.EISDIR)`. -/
def dirSeek (_d : GDir) (_offset _whence : Int) : Int × Option Err :=
  (0, some Err.eisdir)

/-- The scan loop of `ghfsDir.Readdir` (part_002): up to `n` successful
`scanner.Scan()` calls, collecting the scanned entries. -/
def scanTake : Nat → List TreeEntry → List TreeEntry × List TreeEntry
  | 0, rem => ([], rem)
  | _ + 1, [] => ([], [])
  | n + 1, e :: rest =>
      let r := scanTake n rest
      (e :: r.1, r.2)

/-- `ghfsDir.Readdir` from part_002: `for c := 0; c < count; c++` scans, so
a non-positive `count` performs no iterations (`Int.toNat` of a
non-positive count is 0); the scanner's `Err()` is nil in the model. -/
def dirReaddir (d : GDir) (count : Int) : (List FileInfo × Option Err) × GDir :=
  let r := scanTake count.toNat d.scanner
  ((r.1.map entryFileInfo, none), { d with scanner := r.2 })

/-- `ghfsDir` from part_000: the tree's entry list plus the index cursor. -/
structure GDir0 where
  entries : List TreeEntry
  idx : Nat
deriving DecidableEq, Repr

/-- `ghfsDir.Readdir` from part_000: `io.EOF` once the cursor passed the
entry count, otherwise collect from `idx` on — all remaining entries when
`count ≤ 0`, at most `count` otherwise — advancing `idx` per entry. -/
def readdir0 (d : GDir0) (count : Int) : (List FileInfo × Option Err) × GDir0 :=
  if d.entries.length ≤ d.idx then (([], some Err.eof), d)
  else
    let rem := d.entries.drop d.idx
    let n := if 0 < count then min count.toNat rem.length else rem.length
    (((rem.take n).map entryFileInfo0, none), { d with idx := d.idx + n })

/-- The snapshot tree as `ghfs.Open` (part_002) consumes it: the root's
entry list (for the root scanner), the store's path resolution
(`GetTreeEntryByPath`, `none` = not found) and subtree extraction
(`SubTree`, yielding the subtree's entry list for its scanner). -/
structure GTree where
  entries : List TreeEntry
  lookup : String → Option TreeEntry
  sub : String → Option (List TreeEntry)

/-- `ghfs` from part_002 (the commit is only consulted for mtimes, which
no claim observes). -/
structure Ghfs where
  tree : GTree

/-- The two handle variants `ghfs.Open` can return. -/
inductive Handle where
  | dir (d : GDir)
  | file (f : FileState)
deriving DecidableEq

/-- The path normalisation of `ghfs.Open`: strip one leading slash
(`strings.HasPrefix(name, "/")` followed by `name[1:]`), phrased over the
character list so that it evaluates by kernel reduction. -/
def stripSlash (s : String) : String :=
  match s.data with
  | '/' :: rest => String.mk rest
  | _ => s

/-- `ghfs.Open` from part_002.  Besides the handle (or error) it returns
the list of paths passed to the store's `GetTreeEntryByPath` — ghost
instrumentation recording which path lookups the call performed. -/
def ghfsOpen (fs : Ghfs) (name : String) : Except Err Handle × List String :=
  let p := stripSlash name
  if p = "" then
    (Except.ok (Handle.dir { fi := rootFileInfo, scanner := fs.tree.entries }), [])
  else
    match fs.tree.lookup p with
    | none => (Except.error Err.notFound, [p])
    | some entry =>
        let fi := entryFileInfo entry
        match entry.typ with
        | ObjType.tree =>
            match fs.tree.sub p with
            | none => (Except.error Err.notFound, [p])
            | some es => (Except.ok (Handle.dir { fi := fi, scanner := es }), [p])
        | ObjType.blob => (Except.ok (Handle.file (mkFile entry)), [p])
        | ObjType.other => (Except.error Err.invalidType, [p])

/-! ### Lemmas about the read path -/

lemma ensureStream_off (f : FileState) : (ensureStream f).2.off = f.off := by
  unfold ensureStream
  cases f.rc <;> rfl

lemma ensureStream_atEnd (f : FileState) : (ensureStream f).2.atEnd = f.atEnd := by
  unfold ensureStream
  cases f.rc <;> rfl

/-- A read that reports no error advances `off` by the bytes delivered, and
delivers at least one byte when at least one was requested. -/
lemma fileRead_ok (f : FileState) (n : Nat) (bs : List Nat) (f' : FileState)
    (h : fileRead f n = ((bs, none), f')) :
    f'.off = f.off + bs.length ∧ (1 ≤ n → 1 ≤ bs.length) := by
  unfold fileRead at h
  set sf := ensureStream f with hsf
  dsimp only at h
  split at h
  · simp at h
  · split at h
    · simp at h
    · rename_i hlen
      simp only [Prod.mk.injEq] at h
      obtain ⟨⟨hbs, -⟩, hf'⟩ := h
      have hlen' : sf.1.pos < sf.1.content.length := Nat.lt_of_not_le hlen
      have hbl : bs.length = min n (sf.1.content.length - sf.1.pos) := by
        rw [← hbs]
        simp [List.length_take, List.length_drop]
      constructor
      · rw [← hf', hbl]
        have := ensureStream_off f
        rw [hsf] at *
        simp [this]
      · intro hn
        rw [hbl]
        omega

/-- The only read error of the model is end-of-data. -/
lemma fileRead_err (f : FileState) (n : Nat) (bs : List Nat) (e : Err)
    (f' : FileState) (h : fileRead f n = ((bs, some e), f')) : e = Err.eof := by
  unfold fileRead at h
  dsimp only at h
  split at h
  · simp only [Prod.mk.injEq] at h
    exact (Option.some_inj.mp h.1.2).symm
  · split at h
    · simp only [Prod.mk.injEq] at h
      exact (Option.some_inj.mp h.1.2).symm
    · simp at h

/-- Extended read characterization: the delivery is also bounded by the
request. -/
lemma fileRead_ok_le (f : FileState) (n : Nat) (bs : List Nat) (f' : FileState)
    (h : fileRead f n = ((bs, none), f')) : bs.length ≤ n := by
  unfold fileRead at h
  dsimp only at h
  split at h
  · simp at h
  · split at h
    · simp at h
    · simp only [Prod.mk.injEq] at h
      obtain ⟨⟨hbs, -⟩, -⟩ := h
      rw [← hbs]
      simp [List.length_take]

/-- A discard loop that reports no error skipped exactly the requested
count and advanced `off` by it. -/
lemma copyNAux_ok (fuel : Nat) : ∀ (f : FileState) (n : Nat), n ≤ fuel →
    (copyNAux fuel f n).2.1 = none →
    (copyNAux fuel f n).1 = n ∧
    (copyNAux fuel f n).2.2.off = f.off + n := by
  induction fuel with
  | zero =>
      intro f n hn _
      have : n = 0 := Nat.le_zero.mp hn
      subst this
      simp [copyNAux]
  | succ fuel ih =>
      intro f n hn he
      cases n with
      | zero => simp [copyNAux]
      | succ n =>
          rcases hr : fileRead f (n + 1) with ⟨⟨bs, e⟩, f'⟩
          cases e with
          | some e =>
              simp only [copyNAux, hr] at he
              simp at he
          | none =>
              obtain ⟨hoff, hpos⟩ := fileRead_ok f (n + 1) bs f' hr
              have hle := fileRead_ok_le f (n + 1) bs f' hr
              have h1 : 1 ≤ bs.length := hpos (by omega)
              simp only [copyNAux, hr] at he ⊢
              have hrec := ih f' (n + 1 - bs.length) (by omega) he
              constructor
              · rw [hrec.1]; omega
              · rw [hrec.2, hoff]
                push_cast
                omega

/-- The discard loop only ever fails with end-of-data. -/
lemma copyNAux_err (fuel : Nat) : ∀ (f : FileState) (n : Nat) (e : Err),
    (copyNAux fuel f n).2.1 = some e → e = Err.eof := by
  induction fuel with
  | zero =>
      intro f n e he
      cases n with
      | zero => simp [copyNAux] at he
      | succ n =>
          simp only [copyNAux] at he
          exact (Option.some_inj.mp he).symm
  | succ fuel ih =>
      intro f n e he
      cases n with
      | zero => simp [copyNAux] at he
      | succ n =>
          rcases hr : fileRead f (n + 1) with ⟨⟨bs, e'⟩, f'⟩
          cases e' with
          | some e' =>
              simp only [copyNAux, hr] at he
              have := fileRead_err f (n + 1) bs e' f' hr
              rw [← Option.some_inj.mp he, this]
          | none =>
              simp only [copyNAux, hr] at he
              exact ih f' (n + 1 - bs.length) e he

/-- `io.CopyN` with no error: skipped `max n 0` and advanced `off` by it. -/
lemma copyN_ok (f : FileState) (n : Int) (he : (copyN f n).2.1 = none) :
    ((copyN f n).1 : Int) = max n 0 ∧
    (copyN f n).2.2.off = f.off + max n 0 := by
  unfold copyN at he ⊢
  split
  · rename_i hle
    constructor
    · simp; omega
    · simp; omega
  · rename_i hle
    push_neg at hle
    rw [if_neg (not_le.mpr hle)] at he
    obtain ⟨h1, h2⟩ := copyNAux_ok n.toNat f n.toNat le_rfl he
    constructor
    · rw [h1, Int.toNat_of_nonneg (le_of_lt hle)]
      omega
    · rw [h2, Int.toNat_of_nonneg (le_of_lt hle)]
      omega

/-- `io.CopyN` only ever fails with end-of-data. -/
lemma copyN_err (f : FileState) (n : Int) (e : Err)
    (he : (copyN f n).2.1 = some e) : e = Err.eof := by
  unfold copyN at he
  split at he
  · simp at he
  · exact copyNAux_err n.toNat f n.toNat e he

/-- Reading from a closed handle: one request for `a ≤ |blob|` bytes opens
a fresh stream over the blob and delivers its first `a` bytes. -/
lemma fileRead_closed (e : TreeEntry) (off : Int) (op : Nat) (a : Nat)
    (ha : 1 ≤ a) (hb : a ≤ e.blob.length) :
    fileRead ⟨e, none, off, false, op⟩ a =
      ((e.blob.take a, none),
        ⟨e, some ⟨e.blob, a⟩, off + a, false, op + 1⟩) := by
  have hlen : ¬ e.blob.length ≤ 0 := by omega
  have hk : min a (e.blob.length - 0) = a := by omega
  simp [fileRead, ensureStream, hlen, hk]
  omega

/-- Skipping `a` bytes through the read path from a closed handle lands on
a fresh stream positioned at `a`, with `off = a`. -/
lemma copyNAux_closed (e : TreeEntry) (op : Nat) (a : Nat)
    (ha : 1 ≤ a) (hb : a ≤ e.blob.length) :
    copyNAux a ⟨e, none, 0, false, op⟩ a =
      (a, none, ⟨e, some ⟨e.blob, a⟩, (a : Int), false, op + 1⟩) := by
  obtain ⟨a', rfl⟩ : ∃ a', a = a' + 1 := ⟨a - 1, by omega⟩
  have hr := fileRead_closed e 0 op (a' + 1) (by omega) hb
  have hlen : (e.blob.take (a' + 1)).length = a' + 1 := by
    simp [List.length_take]; omega
  simp only [copyNAux, hr, hlen]
  simp [copyNAux]

/-- `io.CopyN` version of `copyNAux_closed`, including the trivial skip. -/
lemma copyN_closed (e : TreeEntry) (op : Nat) (a : Nat)
    (hb : a ≤ e.blob.length) :
    copyN ⟨e, none, 0, false, op⟩ (a : Int) =
      if a = 0 then (0, none, ⟨e, none, 0, false, op⟩)
      else (a, none, ⟨e, some ⟨e.blob, a⟩, (a : Int), false, op + 1⟩) := by
  cases a with
  | zero => simp [copyN]
  | succ a' =>
      rw [if_neg (by omega)]
      unfold copyN
      rw [if_neg (by push_cast; omega), Int.toNat_natCast]
      exact copyNAux_closed e op (a' + 1) (by omega) hb

/-- Draining a handle whose current stream sits at position `p` of content
`c` yields exactly the suffix `c.drop p`. -/
lemma readAllAux_stream : ∀ (fuel : Nat) (c : List Nat) (p : Nat)
    (e : TreeEntry) (off : Int) (op : Nat), c.length - p < fuel →
    readAllAux fuel ⟨e, some ⟨c, p⟩, off, false, op⟩ = c.drop p
  | 0, _, _, _, _, _, h => absurd h (by omega)
  | fuel + 1, c, p, e, off, op, h => by
      by_cases hp : c.length ≤ p
      · have hr : fileRead ⟨e, some ⟨c, p⟩, off, false, op⟩ 1 =
            (([], some Err.eof), ⟨e, some ⟨c, p⟩, off, false, op⟩) := by
          unfold fileRead ensureStream
          dsimp only
          rw [if_neg (by simp), if_pos hp]
        simp only [readAllAux, hr]
        exact (List.drop_eq_nil_of_le hp).symm
      · push_neg at hp
        have hk : min 1 (c.length - p) = 1 := by omega
        have hr : fileRead ⟨e, some ⟨c, p⟩, off, false, op⟩ 1 =
            (((c.drop p).take 1, none),
              ⟨e, some ⟨c, p + 1⟩, off + 1, false, op⟩) := by
          unfold fileRead ensureStream
          dsimp only
          rw [if_neg (by simp), if_neg (by simp; omega)]
          simp [hk]
        simp only [readAllAux, hr]
        rw [readAllAux_stream fuel c (p + 1) e (off + 1) op (by omega)]
        have hdd : c.drop (p + 1) = (c.drop p).drop 1 := by
          rw [List.drop_drop]
        rw [hdd, List.take_append_drop]

/-- `readAll` on a handle streaming the entry's blob from position `p`. -/
lemma readAll_stream (e : TreeEntry) (p : Nat) (off : Int) (op : Nat) :
    readAll ⟨e, some ⟨e.blob, p⟩, off, false, op⟩ = e.blob.drop p := by
  exact readAllAux_stream _ e.blob p e off op (by simp [readAll]; omega)

/-- `readAll` on a closed, not-at-end handle: the lazy open reestablishes
the stream at the start, so the whole blob comes back. -/
lemma readAll_closed (e : TreeEntry) (off : Int) (op : Nat) :
    readAll ⟨e, none, off, false, op⟩ = e.blob := by
  unfold readAll
  dsimp only
  by_cases h0 : e.blob.length = 0
  · have hr : fileRead ⟨e, none, off, false, op⟩ 1 =
        (([], some Err.eof), ⟨e, some ⟨e.blob, 0⟩, off, false, op + 1⟩) := by
      unfold fileRead ensureStream
      dsimp only
      rw [if_neg (by simp), if_pos (by omega)]
    simp only [readAllAux, hr]
    exact (List.length_eq_zero.mp h0).symm
  · have hr := fileRead_closed e off op 1 le_rfl (by omega)
    simp only [readAllAux, hr]
    rw [readAllAux_stream e.blob.length e.blob 1 e (off + ((1 : Nat) : Int))
      (op + 1) (by omega)]
    exact List.take_append_drop 1 e.blob

/-- A `seekTo` that reports no error returned exactly the target. -/
lemma seekTo_ok_val (f : FileState) (noff : Int) (m : Int) (f' : FileState)
    (h : seekTo f noff = ((m, none), f')) : m = noff := by
  unfold seekTo at h
  split at h
  · simp at h
  · rename_i hneg
    push_neg at hneg
    split at h
    · rename_i hlt
      dsimp only at h
      simp only [Prod.mk.injEq] at h
      obtain ⟨⟨hm, he⟩, -⟩ := h
      have hc := copyN_ok _ noff he
      rw [← hm, hc.1]
      omega
    · rename_i hge
      push_neg at hge
      dsimp only at h
      simp only [Prod.mk.injEq] at h
      obtain ⟨⟨hm, he⟩, -⟩ := h
      have hc := copyN_ok f (noff - f.off) he
      rw [← hm, hc.2]
      omega


/-- A failing `seekTo` failed either with end-of-data or, exactly for a
negative target, with the invalid-offset error. -/
lemma seekTo_err (f : FileState) (noff : Int) (m : Int) (e : Err)
    (f' : FileState) (h : seekTo f noff = ((m, some e), f')) :
    e = Err.eof ∨ (e = Err.errOffset ∧ noff < 0 ∧ f' = f) := by
  unfold seekTo at h
  split at h
  · rename_i hneg
    simp only [Prod.mk.injEq] at h
    exact Or.inr ⟨(Option.some_inj.mp h.1.2).symm, hneg, h.2.symm⟩
  · rename_i hneg
    split at h
    · dsimp only at h
      simp only [Prod.mk.injEq] at h
      exact Or.inl (copyN_err _ noff e h.1.2)
    · dsimp only at h
      simp only [Prod.mk.injEq] at h
      exact Or.inl (copyN_err f (noff - f.off) e h.1.2)

/-- A negative target makes `seekTo` fail without further handle change. -/
lemma seekTo_neg (f : FileState) (noff : Int) (h : noff < 0) :
    seekTo f noff = ((0, some Err.errOffset), f) := by
  unfold seekTo
  rw [if_pos h]

/-- Dispatch: `SEEK_SET`. -/
lemma fileSeek_eq_set (f : FileState) (offset : Int) :
    fileSeek f offset 0 = seekTo { f with atEnd := false } offset := by
  simp [fileSeek]

/-- Dispatch: `SEEK_CUR` without the `atEnd` flag. -/
lemma fileSeek_eq_cur (f : FileState) (offset : Int) (hae : f.atEnd = false) :
    fileSeek f offset 1 = seekTo { f with atEnd := false } (f.off + offset) := by
  simp [fileSeek, hae]

/-- Dispatch: `SEEK_CUR` with the `atEnd` flag is exactly `SEEK_END`. -/
lemma fileSeek_eq_cur_atEnd (f : FileState) (offset : Int)
    (hae : f.atEnd = true) :
    fileSeek f offset 1 = fileSeek f offset 2 := by
  simp [fileSeek, hae]

/-- Dispatch: `SEEK_END`. -/
lemma fileSeek_eq_end (f : FileState) (offset : Int) :
    fileSeek f offset 2 =
      if offset = 0 then ((f.entry.size, none), { f with atEnd := true })
      else seekTo { f with atEnd := false } (f.entry.size + offset) := by
  simp [fileSeek]

/-- An unrecognised `whence` fails with the invalid-argument error without
touching the handle. -/
lemma fileSeek_eq_bad (f : FileState) (offset whence : Int)
    (h0 : whence ≠ 0) (h1 : whence ≠ 1) (h2 : whence ≠ 2) :
    fileSeek f offset whence = ((0, some Err.errWhence), f) := by
  simp [fileSeek, h0, h1, h2]

/-- The cheap special case: a zero-offset `SEEK_END` request — or a
zero-offset `SEEK_CUR` rewritten to it by the `atEnd` flag — only sets
`atEnd` and reports the declared size. -/
lemma fileSeek_special (f : FileState) (whence : Int)
    (hw : whence = 2 ∨ (whence = 1 ∧ f.atEnd = true)) :
    fileSeek f 0 whence = ((f.entry.size, none), { f with atEnd := true }) := by
  rcases hw with h2 | ⟨h1, hae⟩
  · subst h2
    rw [fileSeek_eq_end, if_pos rfl]
  · subst h1
    rw [fileSeek_eq_cur_atEnd f 0 hae, fileSeek_eq_end, if_pos rfl]

/-- A seek that reports no error returned exactly the target offset that
part_002 computes (end-relative `Current` when `atEnd`). -/
lemma fileSeek_ok_val (f : FileState) (offset whence : Int) (m : Int)
    (f' : FileState) (h : fileSeek f offset whence = ((m, none), f')) :
    m = seekTarget f offset whence := by
  by_cases h0 : whence = 0
  · subst h0
    rw [fileSeek_eq_set] at h
    simpa [seekTarget] using seekTo_ok_val _ _ _ _ h
  · by_cases h1 : whence = 1
    · subst h1
      cases hae : f.atEnd with
      | true =>
          rw [fileSeek_eq_cur_atEnd _ _ hae, fileSeek_eq_end] at h
          by_cases ho : offset = 0
          · rw [if_pos ho] at h
            simp only [Prod.mk.injEq] at h
            simp [seekTarget, hae, ho, ← h.1.1]
          · rw [if_neg ho] at h
            simpa [seekTarget, hae] using seekTo_ok_val _ _ _ _ h
      | false =>
          rw [fileSeek_eq_cur _ _ hae] at h
          simpa [seekTarget, hae] using seekTo_ok_val _ _ _ _ h
    · by_cases h2 : whence = 2
      · subst h2
        rw [fileSeek_eq_end] at h
        by_cases ho : offset = 0
        · rw [if_pos ho] at h
          simp only [Prod.mk.injEq] at h
          simp [seekTarget, ho, ← h.1.1]
        · rw [if_neg ho] at h
          simpa [seekTarget] using seekTo_ok_val _ _ _ _ h
      · rw [fileSeek_eq_bad f offset whence h0 h1 h2] at h
        simp at h

/-- A negative target — outside the zero-offset end special case — fails
with the invalid-offset error; the only handle change is that the `atEnd`
flag has already been cleared. -/
lemma fileSeek_neg (f : FileState) (offset whence : Int)
    (hw : whence = 0 ∨ whence = 1 ∨ whence = 2)
    (hsp : ¬((whence = 2 ∨ (whence = 1 ∧ f.atEnd = true)) ∧ offset = 0))
    (hneg : seekTarget f offset whence < 0) :
    fileSeek f offset whence =
      ((0, some Err.errOffset), { f with atEnd := false }) := by
  rcases hw with h0 | h1 | h2
  · subst h0
    rw [fileSeek_eq_set]
    simp only [seekTarget, if_pos rfl] at hneg
    exact seekTo_neg _ _ hneg
  · subst h1
    cases hae : f.atEnd with
    | true =>
        have ho : ¬ offset = 0 := fun hc => hsp ⟨Or.inr ⟨rfl, hae⟩, hc⟩
        rw [fileSeek_eq_cur_atEnd _ _ hae, fileSeek_eq_end, if_neg ho]
        simp only [seekTarget, hae] at hneg
        norm_num at hneg
        exact seekTo_neg _ _ hneg
    | false =>
        rw [fileSeek_eq_cur _ _ hae]
        simp only [seekTarget, hae] at hneg
        norm_num at hneg
        exact seekTo_neg _ _ hneg
  · subst h2
    have ho : ¬ offset = 0 := fun hc => hsp ⟨Or.inl rfl, hc⟩
    rw [fileSeek_eq_end, if_neg ho]
    simp only [seekTarget] at hneg
    norm_num at hneg
    exact seekTo_neg _ _ hneg

/-- Conversely, the invalid-offset error only arises from a negative
target. -/
lemma fileSeek_errOffset_only (f : FileState) (offset whence : Int)
    (m : Int) (f' : FileState)
    (h : fileSeek f offset whence = ((m, some Err.errOffset), f')) :
    seekTarget f offset whence < 0 := by
  by_cases h0 : whence = 0
  · subst h0
    rw [fileSeek_eq_set] at h
    rcases seekTo_err _ _ _ _ _ h with he | ⟨-, hn, -⟩
    · exact absurd he (by simp)
    · simpa [seekTarget] using hn
  · by_cases h1 : whence = 1
    · subst h1
      cases hae : f.atEnd with
      | true =>
          rw [fileSeek_eq_cur_atEnd _ _ hae, fileSeek_eq_end] at h
          by_cases ho : offset = 0
          · rw [if_pos ho] at h
            simp at h
          · rw [if_neg ho] at h
            rcases seekTo_err _ _ _ _ _ h with he | ⟨-, hn, -⟩
            · exact absurd he (by simp)
            · simpa [seekTarget, hae] using hn
      | false =>
          rw [fileSeek_eq_cur _ _ hae] at h
          rcases seekTo_err _ _ _ _ _ h with he | ⟨-, hn, -⟩
          · exact absurd he (by simp)
          · simpa [seekTarget, hae] using hn
    · by_cases h2 : whence = 2
      · subst h2
        rw [fileSeek_eq_end] at h
        by_cases ho : offset = 0
        · rw [if_pos ho] at h
          simp at h
        · rw [if_neg ho] at h
          rcases seekTo_err _ _ _ _ _ h with he | ⟨-, hn, -⟩
          · exact absurd he (by simp)
          · simpa [seekTarget] using hn
      · rw [fileSeek_eq_bad f offset whence h0 h1 h2] at h
        simp at h

/-! ### Claim theorems -/

/-- C1: for a file handle whose logical offset lies beyond `a`, a backward
`seek(a, Start)` succeeds returning `a`, and draining the handle afterwards
yields byte-for-byte the suffix that a fresh handle over the same entry
would yield after discarding its first `a` bytes.  The backward seek
discards the current stream (`Close`: nil `rc`, `off = 0`) and forward-skips
`a` bytes through the normal read path. -/
theorem c1_backward_seek_replays_suffix (f : FileState) (a : Nat)
    (ha : (a : Int) < f.off) (hb : a ≤ f.entry.blob.length) :
    (fileSeek f (a : Int) 0).1 = ((a : Int), none) ∧
    readAll (fileSeek f (a : Int) 0).2 = (readAll (mkFile f.entry)).drop a := by
  have hmk : readAll (mkFile f.entry) = f.entry.blob := readAll_closed f.entry 0 0
  rw [fileSeek_eq_set]
  have ha' : (a : Int) < ({ f with atEnd := false } : FileState).off := by
    simpa using ha
  unfold seekTo
  rw [if_neg (by omega), if_pos ha']
  dsimp only
  have hcl : (fileClose { f with atEnd := false }).2 =
      (⟨f.entry, none, 0, false, f.opens⟩ : FileState) := rfl
  rw [hcl, copyN_closed f.entry f.opens a hb]
  by_cases ha0 : a = 0
  · subst ha0
    rw [if_pos rfl]
    refine ⟨rfl, ?_⟩
    rw [readAll_closed f.entry 0 f.opens, hmk]
    simp
  · rw [if_neg ha0]
    refine ⟨rfl, ?_⟩
    rw [readAll_stream f.entry a (a : Int) (f.opens + 1), hmk]

def c1entry : TreeEntry :=
  { name := "a", typ := ObjType.blob, size := 3, blob := [10, 20, 30] }

def c1state : FileState :=
  { entry := c1entry, rc := some ⟨[10, 20, 30], 2⟩, off := 2, atEnd := false,
    opens := 1 }

/-- C1 witness: a handle that has read 2 bytes, seeking back to 1. -/
theorem c1_witness :
    (((1 : Nat) : Int) < c1state.off ∧ (1 : Nat) ≤ c1state.entry.blob.length) ∧
    ((fileSeek c1state ((1 : Nat) : Int) 0).1 = (((1 : Nat) : Int), none) ∧
      readAll (fileSeek c1state ((1 : Nat) : Int) 0).2 =
        (readAll (mkFile c1state.entry)).drop 1) :=
  ⟨⟨by decide, by decide⟩,
    c1_backward_seek_replays_suffix c1state 1 (by decide) (by decide)⟩

def c2entry : TreeEntry :=
  { name := "b", typ := ObjType.blob, size := 5, blob := [1, 2, 3, 4, 5] }

def c2state : FileState :=
  { entry := c2entry, rc := none, off := 0, atEnd := true, opens := 0 }

/-- C2 counterexample: on a handle flying the `atEnd` flag (off = 0,
size = 5), `seek(0, Current)` succeeds returning 5, whereas the claim's
`noff = off + offset` is 0 — so the seek does not return the claim's
target. -/
theorem c2_counterexample :
    (fileSeek c2state 0 1).1 = ((5 : Int), none) ∧
    c2state.off + 0 = (0 : Int) ∧ (5 : Int) ≠ 0 := by decide

/-- C2 (amended): `seek(offset, whence)` computes the target `noff` as
POSIX prescribes for Start/End, but `Current` is end-relative
(`size + offset`) whenever the handle is `atEnd`; an unrecognised `whence`
fails with the invalid-argument error leaving the handle unchanged; a
zero-offset End-form request returns the size while only setting `atEnd`;
otherwise a negative `noff` fails with the invalid-offset error — and
exactly then — with the `atEnd` flag cleared (the handle is otherwise
unchanged); every successful seek returns `noff`. -/
theorem c2_seek_target_spec (f : FileState) (offset whence : Int) :
    (¬(whence = 0 ∨ whence = 1 ∨ whence = 2) →
      fileSeek f offset whence = ((0, some Err.errWhence), f)) ∧
    (((whence = 2 ∨ (whence = 1 ∧ f.atEnd = true)) ∧ offset = 0) →
      fileSeek f offset whence =
        ((f.entry.size, none), { f with atEnd := true })) ∧
    ((whence = 0 ∨ whence = 1 ∨ whence = 2) →
      ¬((whence = 2 ∨ (whence = 1 ∧ f.atEnd = true)) ∧ offset = 0) →
      seekTarget f offset whence < 0 →
      fileSeek f offset whence =
        ((0, some Err.errOffset), { f with atEnd := false })) ∧
    (∀ m f', fileSeek f offset whence = ((m, none), f') →
      m = seekTarget f offset whence) ∧
    (∀ m f', fileSeek f offset whence = ((m, some Err.errOffset), f') →
      seekTarget f offset whence < 0) := by
  refine ⟨?_, ?_, ?_, ?_, ?_⟩
  · intro hw
    push_neg at hw
    exact fileSeek_eq_bad f offset whence hw.1 hw.2.1 hw.2.2
  · rintro ⟨hw, rfl⟩
    exact fileSeek_special f whence hw
  · exact fileSeek_neg f offset whence
  · intro m f' h
    exact fileSeek_ok_val f offset whence m f' h
  · intro m f' h
    exact fileSeek_errOffset_only f offset whence m f' h

def c2wit : FileState :=
  { entry := c2entry, rc := none, off := 0, atEnd := true, opens := 0 }

/-- C2 witness: a negative-target seek on an `atEnd` handle fails with the
invalid-offset error and clears the flag. -/
theorem c2_witness :
    fileSeek c2wit (-1) 0 =
      ((0, some Err.errOffset), { c2wit with atEnd := false }) :=
  (c2_seek_target_spec c2wit (-1) 0).2.2.1 (Or.inl rfl) (by decide) (by decide)

/-- C3: `seek(0, End)` on any handle state only sets `atEnd` and returns
the declared size: the result state equals the input state with `atEnd`
set, so `rc`, `off` and the ghost open counter are untouched — no stream
is opened and no content is read by the call. -/
theorem c3_seek_zero_end_cheap (f : FileState) :
    fileSeek f 0 2 = ((f.entry.size, none), { f with atEnd := true }) :=
  fileSeek_special f 2 (Or.inl rfl)

def c4entry : TreeEntry :=
  { name := "d", typ := ObjType.blob, size := 2, blob := [7, 8] }

def c4state : FileState :=
  { entry := c4entry, rc := none, off := 0, atEnd := true, opens := 0 }

/-- C4 counterexample: a read on an `atEnd` handle that has no backing
stream does open one — the source establishes the stream before checking
the flag — contradicting the claim that no backing stream is opened. -/
theorem c4_counterexample :
    c4state.opens = 0 ∧ c4state.rc = none ∧
    (fileRead c4state 1).2.opens = 1 ∧
    (fileRead c4state 1).1 = ([], some Err.eof) := by decide

/-- C4 (amended): a read on an `atEnd` handle returns 0 bytes with
end-of-data, pulls nothing from the stream, and leaves `off` and the flag
unchanged; but when no backing stream is present the read first lazily
opens one (the handle is otherwise untouched). -/
theorem c4_read_atEnd_spec (f : FileState) (n : Nat) (h : f.atEnd = true) :
    (fileRead f n).1 = ([], some Err.eof) ∧
    (fileRead f n).2.off = f.off ∧
    (fileRead f n).2.atEnd = true ∧
    (f.rc ≠ none → (fileRead f n).2 = f) ∧
    (f.rc = none → (fileRead f n).2 =
      { f with rc := some ⟨f.entry.blob, 0⟩, opens := f.opens + 1 }) := by
  cases hrc : f.rc with
  | none => simp [fileRead, ensureStream, hrc, h]
  | some s => simp [fileRead, ensureStream, hrc, h]

/-- C4 witness: the amended behaviour at a concrete `atEnd` handle. -/
theorem c4_witness :
    c4state.atEnd = true ∧
    ((fileRead c4state 1).1 = ([], some Err.eof) ∧
      (fileRead c4state 1).2.off = c4state.off ∧
      (fileRead c4state 1).2.atEnd = true ∧
      (c4state.rc ≠ none → (fileRead c4state 1).2 = c4state) ∧
      (c4state.rc = none → (fileRead c4state 1).2 =
        { c4state with rc := some ⟨c4state.entry.blob, 0⟩, opens := c4state.opens + 1 })) :=
  ⟨by decide, c4_read_atEnd_spec c4state 1 (by decide)⟩

def c5entry : TreeEntry :=
  { name := "e", typ := ObjType.blob, size := 1, blob := [9] }

def c5open : FileState :=
  { entry := c5entry, rc := some ⟨[9], 1⟩, off := 1, atEnd := false,
    opens := 1 }

/-- C5 counterexample: after `close()` (stream released, `off` reset), the
very next read succeeds and delivers a byte — reads after close do not
fail. -/
theorem c5_counterexample :
    (fileClose c5open).2.rc = none ∧ (fileClose c5open).2.off = 0 ∧
    (fileRead (fileClose c5open).2 1).1 = ([9], none) := by decide

/-- C5 (amended): `close()` releases the backing stream if present and
resets `off` to 0, but leaves the `atEnd` flag as is and does not mark the
handle closed: on a non-`atEnd` handle with non-empty content, a
subsequent read lazily reopens the stream and delivers bytes from the
start of the blob instead of failing. -/
theorem c5_close_spec (f : FileState) (h : f.atEnd = false)
    (hne : f.entry.blob ≠ []) :
    fileClose f = (none, { f with rc := none, off := 0 }) ∧
    (fileClose f).2.atEnd = f.atEnd ∧
    (fileRead (fileClose f).2 1).1 = (f.entry.blob.take 1, none) := by
  obtain ⟨fe, frc, foff, fae, fop⟩ := f
  simp only at h hne
  subst h
  refine ⟨rfl, rfl, ?_⟩
  have h1 : 1 ≤ fe.blob.length := by
    have := List.length_pos.mpr hne
    omega
  have hr := fileRead_closed fe 0 fop 1 le_rfl h1
  have hcl : (fileClose ⟨fe, frc, foff, false, fop⟩).2 =
      (⟨fe, none, 0, false, fop⟩ : FileState) := rfl
  rw [hcl, hr]

/-- C5 witness: the amended behaviour at a concrete open handle. -/
theorem c5_witness :
    (c5open.atEnd = false ∧ c5open.entry.blob ≠ []) ∧
    (fileClose c5open = (none, { c5open with rc := none, off := 0 }) ∧
      (fileClose c5open).2.atEnd = c5open.atEnd ∧
      (fileRead (fileClose c5open).2 1).1 =
        (c5open.entry.blob.take 1, none)) :=
  ⟨⟨by decide, by decide⟩, c5_close_spec c5open (by decide) (by decide)⟩

/-- C6: opening `""` or `"/"` yields a directory handle over the
snapshot's root entries whose metadata is the synthetic root info
(size 0, kind Directory), and the call performs no store path lookup
(the recorded lookup list is empty). -/
theorem c6_open_root (fs : Ghfs) :
    ghfsOpen fs "" =
      (Except.ok (Handle.dir { fi := rootFileInfo, scanner := fs.tree.entries }), []) ∧
    ghfsOpen fs "/" =
      (Except.ok (Handle.dir { fi := rootFileInfo, scanner := fs.tree.entries }), []) ∧
    rootFileInfo.size = 0 ∧ rootFileInfo.isDir = true :=
  ⟨rfl, rfl, rfl, rfl⟩

def c7entry : TreeEntry :=
  { name := "b.txt", typ := ObjType.blob, size := 1, blob := [120] }

def c7dir : GDir := { fi := rootFileInfo, scanner := [c7entry] }

def c7dir0 : GDir0 := { entries := [c7entry], idx := 0 }

/-- C7: evaluating the part_002 `Readdir` at the failing input: a
non-positive `count` on a non-exhausted directory returns no entries and
consumes nothing, while the part_000 generation returns all remaining
entries as the claim (and the `http.File` contract) requires. -/
theorem c7_readdir_nonpositive_count :
    dirReaddir c7dir (-1) = (([], none), c7dir) ∧
    dirReaddir c7dir 0 = (([], none), c7dir) ∧
    readdir0 c7dir0 (-1) =
      (([entryFileInfo0 c7entry], none), { c7dir0 with idx := 1 }) := by
  decide

/-- C8: once a directory handle's enumeration is exhausted, every further
`Readdir` returns an empty entry list without failing and leaves the
handle unchanged: part_000 reports the end-of-data signal (`io.EOF`, the
spec's non-error done marker), part_002 reports no error at all. -/
theorem c8_readdir_after_done (d0 : GDir0) (d2 : GDir) (c0 c2 : Int)
    (h0 : d0.entries.length ≤ d0.idx) (h2 : d2.scanner = []) :
    readdir0 d0 c0 = (([], some Err.eof), d0) ∧
    dirReaddir d2 c2 = (([], none), d2) := by
  constructor
  · unfold readdir0
    rw [if_pos h0]
  · obtain ⟨fi2, sc2⟩ := d2
    simp only at h2
    subst h2
    have hs : ∀ n, scanTake n ([] : List TreeEntry) = ([], []) := by
      intro n
      cases n <;> rfl
    unfold dirReaddir
    rw [hs]
    rfl

def c8d0 : GDir0 := { entries := [c7entry], idx := 1 }

def c8d2 : GDir := { fi := rootFileInfo, scanner := [] }

/-- C8 witness: exhausted handles of both generations at a concrete
input. -/
theorem c8_witness :
    (c8d0.entries.length ≤ c8d0.idx ∧ c8d2.scanner = []) ∧
    (readdir0 c8d0 5 = (([], some Err.eof), c8d0) ∧
      dirReaddir c8d2 5 = (([], none), c8d2)) :=
  ⟨⟨by decide, by decide⟩,
    c8_readdir_after_done c8d0 c8d2 5 5 (by decide) (by decide)⟩

def c9file : FileState := mkFile c5entry

/-- C9 counterexample: `Readdir` on a file handle fails with the generic
invalid-argument sentinel (`os.ErrInvalid`), not with a not-a-directory
error as the claim states. -/
theorem c9_counterexample :
    (fileReaddir c9file 1).2 = some Err.errInvalid ∧
    (fileReaddir c9file 1).2 ≠ some Err.enotdir := by decide

/-- C9 (amended): type-mismatched operations never produce ambiguous
successes: `Read` on a directory returns no data with end-of-data,
`Seek` on a directory always fails with the is-a-directory error, and
`Readdir` on a file always fails — with the invalid-argument error
(`os.ErrInvalid`) rather than a not-a-directory error. -/
theorem c9_type_mismatch_spec (d : GDir) (f : FileState) (n : Nat)
    (offset whence count : Int) :
    dirRead d n = ([], some Err.eof) ∧
    dirSeek d offset whence = (0, some Err.eisdir) ∧
    fileReaddir f count = ([], some Err.errInvalid) :=
  ⟨rfl, rfl, rfl⟩

def c10state : FileState :=
  { entry := c2entry, rc := none, off := 0, atEnd := true, opens := 0 }

/-- C10: on an `atEnd` handle, `seek(offset, Current)` behaves exactly as
`seek(offset, End)`: its target is `size + offset` rather than
`off + offset` — in particular any successful such seek returns
`size + offset`. -/
theorem c10_seek_cur_atEnd_is_end_relative (f : FileState) (offset : Int)
    (h : f.atEnd = true) :
    fileSeek f offset 1 = fileSeek f offset 2 ∧
    (∀ m f', fileSeek f offset 1 = ((m, none), f') →
      m = f.entry.size + offset) := by
  refine ⟨fileSeek_eq_cur_atEnd f offset h, ?_⟩
  intro m f' hm
  have := fileSeek_ok_val f offset 1 m f' hm
  simpa [seekTarget, h] using this

/-- C10 witness: a concrete `atEnd` handle with `off < size`. -/
theorem c10_witness :
    fileSeek c10state 0 1 = fileSeek c10state 0 2 :=
  (c10_seek_cur_atEnd_is_end_relative c10state 0 (by decide)).1
